import Mathlib

/-!
Shallow embedding of the chain data ingestion and aggregation engine of
ckb-tx-rocket: the `ChainDataManager` class (blocks/transactions maps,
bounded sliding windows, derived metrics, bus teardown) and the
`CKBChainVizService.handleMessage` event normalizer.

Conventions of the embedding:
* JS `Map` (insertion-ordered, string-keyed) is a `List (String × α)`
  with `mapSet` (replace-in-place or append), `mapDelete`, `mapGet`.
* Timestamps are `Int` milliseconds (the numeric value `Date.getTime`
  yields); metric arithmetic is over `ℚ`.
* `parseInt` returning NaN is `Option Int` with `none` for NaN.
* `BigInt(s)` throwing on a malformed string is `jsBigInt : String → Option Int`
  with `none` for the thrown `SyntaxError`; a handler's `try/catch` becomes
  an `Option` match that leaves the state untouched on `none`.
* Bus handlers return the new state together with the list of events they
  emit.
-/

namespace ChainViz

/-- Transaction lifecycle status, from the union type in the source. -/
inductive TxStatus where
  | PENDING
  | PROPOSED
  | CONFIRMED
  | REJECTED
deriving DecidableEq, Repr

/-- `Block` of CKBChainVizService.ts.  `timestamp` is the numeric arrival
time in milliseconds (the value obtained from the wire timestamp);
`transactions` carries only hashes in the source and no claim reads it,
so it is dropped here. -/
structure Block where
  blockNumber : String
  blockHash : String
  timestamp : Int
  miner : String
  reward : String
  transactionCount : Nat
deriving DecidableEq, Repr

/-- `Transaction` of CKBChainVizService.ts (RawTransaction). -/
structure Transaction where
  txHash : String
  timestamp : Int
deriving DecidableEq, Repr

/-- `EnhancedTransaction` of CKBChainVizService.ts: a raw transaction plus
the status attached by the normalizer. -/
structure EnhancedTransaction where
  txHash : String
  timestamp : Int
  status : TxStatus
deriving DecidableEq, Repr

/-- `ProcessedBlockData` of ChainDataManager.ts.  `number` is `none` when
`parseInt` yields NaN. -/
structure ProcessedBlockData where
  hash : String
  number : Option Int
  timestamp : Int
  transactionCount : Nat
  totalValue : Int
  size : Nat
  miner : String
  difficulty : Int
deriving DecidableEq, Repr

/-- `ProcessedTransactionData` of ChainDataManager.ts. -/
structure ProcessedTransactionData where
  hash : String
  status : TxStatus
  value : Int
  fee : Int
  inputCount : Nat
  outputCount : Nat
  size : Nat
  timestamp : Option Int
deriving DecidableEq, Repr

/-- The metrics record returned by `getMetrics`. -/
structure Metrics where
  averageBlockTime : ℚ
  transactionThroughput : ℚ
  networkHashRate : Int
  pendingTxCount : Nat
  confirmationTime : ℚ
deriving DecidableEq, Repr

/-! ### JS `Map` model (insertion-ordered association list) -/

/-- `Map.set`: replace in place when the key exists, else append. -/
def mapSet (m : List (String × α)) (k : String) (v : α) : List (String × α) :=
  if (m.find? (fun p => p.1 = k)).isSome then
    m.map (fun p => if p.1 = k then (k, v) else p)
  else m ++ [(k, v)]

/-- `Map.delete`: remove every entry with the key (a JS map has at most
one, and deleting an absent key is a no-op). -/
def mapDelete (m : List (String × α)) (k : String) : List (String × α) :=
  m.filter (fun p => ¬ p.1 = k)

/-- `Map.get`: `none` models `undefined`. -/
def mapGet (m : List (String × α)) (k : String) : Option α :=
  (m.find? (fun p => p.1 = k)).map (fun p => p.2)

/-! ### Number/string parsing -/

/-- Accumulate the decimal digits of `cs` onto `acc`. -/
def digitsToNat (cs : List Char) (acc : Nat) : Nat :=
  match cs with
  | [] => acc
  | c :: rest => digitsToNat rest (acc * 10 + (c.toNat - 48))

/-- `BigInt(s)` on a string: the exact integer for `""` (which is 0) and
for optionally-negated decimal digit strings; `none` models the thrown
`SyntaxError` on anything else. -/
def jsBigInt (s : String) : Option Int :=
  if s = "" then some 0
  else if s.data.all (fun c => c.isDigit) then some (digitsToNat s.data 0)
  else
    match s.data with
    | '-' :: rest =>
        if rest ≠ [] ∧ rest.all (fun c => c.isDigit) then
          some (-(digitsToNat rest 0 : Int))
        else none
    | _ => none

/-- `parseInt(s)` (radix 10): longest digit prefix after an optional sign;
`none` models NaN. -/
def jsParseInt (s : String) : Option Int :=
  let core : List Char → Option Int := fun cs =>
    let digits := cs.takeWhile (fun c => c.isDigit)
    if digits = [] then none else some (digitsToNat digits 0)
  match s.data with
  | '-' :: rest => (core rest).map (fun n => -n)
  | '+' :: rest => core rest
  | cs => core cs

/-! ### ChainDataManager state and handlers -/

/-- The mutable fields of `ChainDataManager`. -/
structure MgrState where
  blocks : List (String × ProcessedBlockData)
  transactions : List (String × ProcessedTransactionData)
  blockTimestamps : List Int
  transactionCounts : List Nat
deriving DecidableEq, Repr

/-- The manager's state right after construction. -/
def initMgr : MgrState := ⟨[], [], [], []⟩

/-- Append to a sliding window, evicting the oldest entry once the length
exceeds 100 (the `push` + conditional `shift` of `handleNewBlock`). -/
def pushWindow (w : List α) (x : α) : List α :=
  let w1 := w ++ [x]
  if w1.length > 100 then w1.tail else w1

/-- The last `min n (length l)` entries of `l`: `Array.slice(-n)`. -/
def lastN (n : Nat) (l : List α) : List α :=
  l.drop (l.length - n)

/-- `processBlock`: `none` when `BigInt(block.reward || '0')` throws. -/
def processBlock (b : Block) : Option ProcessedBlockData :=
  (jsBigInt (if b.reward = "" then "0" else b.reward)).map fun v =>
    { hash := b.blockHash
      number := jsParseInt b.blockNumber
      timestamp := b.timestamp
      transactionCount := b.transactionCount
      totalValue := v
      size := 0
      miner := b.miner
      difficulty := 0 }

/-- `processTransaction` (total: nothing in it can throw for a well-typed
`EnhancedTransaction`). -/
def processTransaction (t : EnhancedTransaction) : ProcessedTransactionData :=
  { hash := t.txHash
    status := t.status
    value := 0
    fee := 0
    inputCount := 0
    outputCount := 0
    size := 0
    timestamp := some t.timestamp }

/-- `calculateAverageBlockTime`: mean of consecutive deltas of the
timestamp window, in seconds; 0 with fewer than 2 samples. -/
def calculateAverageBlockTime (s : MgrState) : ℚ :=
  if s.blockTimestamps.length < 2 then 0
  else
    let intervals := List.zipWith (fun a b => b - a)
      s.blockTimestamps s.blockTimestamps.tail
    ((intervals.foldl (· + ·) 0 : Int) : ℚ) / (intervals.length : ℚ) / 1000

/-- `calculateTransactionThroughput`: sum of the last-10 slice of the
transaction-count window over (slice length × average block time). -/
def calculateTransactionThroughput (s : MgrState) : ℚ :=
  if s.transactionCounts.length = 0 then 0
  else
    let recentCounts := lastN 10 s.transactionCounts
    let totalTx : Nat := recentCounts.foldl (· + ·) 0
    let avgBlockTime := calculateAverageBlockTime s
    if avgBlockTime > 0 then (totalTx : ℚ) / ((recentCounts.length : ℚ) * avgBlockTime)
    else 0

/-- `estimateHashRate`: mean difficulty of the last 10 blocks over the
average block time, floored to a BigInt. -/
def estimateHashRate (s : MgrState) : Int :=
  if s.blocks.length = 0 then 0
  else
    let recentBlocks := lastN 10 (s.blocks.map (fun p => p.2))
    let avgDifficulty : ℚ :=
      (((recentBlocks.map (fun b => b.difficulty)).foldl (· + ·) 0 : Int) : ℚ)
        / (recentBlocks.length : ℚ)
    let avgBlockTime := calculateAverageBlockTime s
    if avgBlockTime > 0 then ⌊avgDifficulty / avgBlockTime⌋ else 0

/-- `calculateAverageConfirmationTime`: six block intervals. -/
def calculateAverageConfirmationTime (s : MgrState) : ℚ :=
  calculateAverageBlockTime s * 6

/-- `getMetrics`. -/
def getMetrics (s : MgrState) : Metrics :=
  { averageBlockTime := calculateAverageBlockTime s
    transactionThroughput := calculateTransactionThroughput s
    networkHashRate := estimateHashRate s
    pendingTxCount :=
      (s.transactions.filter (fun p => p.2.status = TxStatus.PENDING)).length
    confirmationTime := calculateAverageConfirmationTime s }

/-- Events the manager publishes back on the bus. -/
inductive BusOut where
  | processedBlockData (b : ProcessedBlockData)
  | chainMetricsUpdated (m : Metrics)
  | processedTransactionData (t : ProcessedTransactionData)
  | transactionRemoved (hash : String)
deriving DecidableEq, Repr

/-- `handleNewBlock`: on a parse failure the surrounding `try/catch`
swallows the exception before any field was mutated, so the state is
returned unchanged and nothing is emitted. -/
def handleNewBlock (s : MgrState) (b : Block) : MgrState × List BusOut :=
  match processBlock b with
  | none => (s, [])
  | some pb =>
      let s1 := { s with blocks := mapSet s.blocks b.blockHash pb }
      let s2 := { s1 with blockTimestamps := pushWindow s1.blockTimestamps pb.timestamp }
      let s3 := { s2 with transactionCounts := pushWindow s2.transactionCounts pb.transactionCount }
      (s3, [BusOut.processedBlockData pb, BusOut.chainMetricsUpdated (getMetrics s3)])

/-- `handleTransactionUpdate`. -/
def handleTransactionUpdate (s : MgrState) (t : EnhancedTransaction) :
    MgrState × List BusOut :=
  let pt := processTransaction t
  ({ s with transactions := mapSet s.transactions t.txHash pt },
   [BusOut.processedTransactionData pt])

/-- `handleTransactionRejected`. -/
def handleTransactionRejected (s : MgrState) (t : EnhancedTransaction) :
    MgrState × List BusOut :=
  ({ s with transactions := mapDelete s.transactions t.txHash },
   [BusOut.transactionRemoved t.txHash])

/-- `getTransactionByHash`. -/
def getTransactionByHash (s : MgrState) (h : String) :
    Option ProcessedTransactionData :=
  mapGet s.transactions h

/-- `getBlockByHash`. -/
def getBlockByHash (s : MgrState) (h : String) : Option ProcessedBlockData :=
  mapGet s.blocks h

/-- The normalized domain events the manager subscribes to. -/
inductive BusIn where
  | blockFinalized (b : Block)
  | transactionPending (t : EnhancedTransaction)
  | transactionProposed (t : EnhancedTransaction)
  | transactionConfirmed (t : EnhancedTransaction)
  | transactionRejected (t : EnhancedTransaction)
deriving DecidableEq, Repr

/-- Dispatch of one normalized event to the handler `setupEventListeners`
registered for it. -/
def step (s : MgrState) (e : BusIn) : MgrState × List BusOut :=
  match e with
  | BusIn.blockFinalized b => handleNewBlock s b
  | BusIn.transactionPending t => handleTransactionUpdate s t
  | BusIn.transactionProposed t => handleTransactionUpdate s t
  | BusIn.transactionConfirmed t => handleTransactionUpdate s t
  | BusIn.transactionRejected t => handleTransactionRejected s t

/-- Run a sequence of normalized events through the manager. -/
def runMgr (s : MgrState) (es : List BusIn) : MgrState :=
  es.foldl (fun s0 e => (step s0 e).1) s

/-! ### Event normalizer (`CKBChainVizService.handleMessage`) -/

/-- The wire payload union `Block | Transaction`. -/
inductive WirePayload where
  | block (b : Block)
  | transaction (t : Transaction)
deriving DecidableEq, Repr

/-- Inbound `WebSocketMessage`.  `type` is an open string so that unknown
type tags can be fed to the normalizer. -/
structure WebSocketMessage where
  channel : String
  type : String
  payload : WirePayload
deriving DecidableEq, Repr

/-- The `{...payload, status}` spread the normalizer performs for a
transaction message. -/
def attachStatus (t : Transaction) (st : TxStatus) : EnhancedTransaction :=
  { txHash := t.txHash, timestamp := t.timestamp, status := st }

/-- `handleMessage`: the events republished on the bus for one inbound
message.  Unknown type tags log and emit nothing.  The source's `switch`
trusts the payload to match the type tag (`payload as Block`); a message
whose payload variant contradicts its tag is outside the typed model and
emits nothing here. -/
def handleMessage (m : WebSocketMessage) : List BusIn :=
  match m.type, m.payload with
  | "block.finalized", WirePayload.block b => [BusIn.blockFinalized b]
  | "transaction.pending", WirePayload.transaction t =>
      [BusIn.transactionPending (attachStatus t TxStatus.PENDING)]
  | "transaction.proposed", WirePayload.transaction t =>
      [BusIn.transactionProposed (attachStatus t TxStatus.PROPOSED)]
  | "transaction.confirmed", WirePayload.transaction t =>
      [BusIn.transactionConfirmed (attachStatus t TxStatus.CONFIRMED)]
  | "transaction.rejected", WirePayload.transaction t =>
      [BusIn.transactionRejected (attachStatus t TxStatus.REJECTED)]
  | _, _ => []

/-- Processing a stream of messages: each message is classified in its own
`try/catch`, so one message's outcome never affects the others. -/
def handleMessages (ms : List WebSocketMessage) : List BusIn :=
  ms.flatMap handleMessage

/-! ### The event bus and teardown (`setupEventListeners` / `cleanup`)

Phaser's `Events.EventEmitter` (eventemitter3) keeps, per event name, a
list of listener function references; `off(event, fn)` removes exactly the
registrations whose stored function is reference-equal to `fn`, and is a
silent no-op when none is.  `Function.prototype.bind` allocates a fresh
function object on every call, so two calls to `handler.bind(this)` are
never reference-equal.  The model gives every `bind` result a fresh
numeric identity drawn from a counter. -/

/-- Which underlying method a bound listener wraps. -/
inductive HandlerKind where
  | hNewBlock
  | hTxUpdate
  | hTxRejected
deriving DecidableEq, Repr

/-- One registration in the emitter: event name, the identity of the bound
function object passed to `on`, and the method it wraps. -/
structure Listener where
  event : String
  fnId : Nat
  kind : HandlerKind
deriving DecidableEq, Repr

/-- A manager together with the bus it is registered on and the allocation
counter for `bind`-created function objects. -/
structure SysState where
  mgr : MgrState
  listeners : List Listener
  nextFnId : Nat
deriving DecidableEq, Repr

/-- `EventBus.off(event, fn)`: drop the registrations whose event name and
stored function identity both match; never throws. -/
def busOff (ls : List Listener) (event : String) (fnId : Nat) : List Listener :=
  ls.filter (fun l => ¬ (l.event = event ∧ l.fnId = fnId))

/-- `setupEventListeners`: five `on` calls, each with a freshly
`bind`-allocated function. -/
def setupEventListeners (s : SysState) : SysState :=
  { s with
    listeners := s.listeners ++
      [ ⟨"block-finalized", s.nextFnId, HandlerKind.hNewBlock⟩
      , ⟨"transaction-pending", s.nextFnId + 1, HandlerKind.hTxUpdate⟩
      , ⟨"transaction-proposed", s.nextFnId + 2, HandlerKind.hTxUpdate⟩
      , ⟨"transaction-confirmed", s.nextFnId + 3, HandlerKind.hTxUpdate⟩
      , ⟨"transaction-rejected", s.nextFnId + 4, HandlerKind.hTxRejected⟩ ]
    nextFnId := s.nextFnId + 5 }

/-- `new ChainDataManager()` on a fresh bus: the constructor calls
`setupEventListeners`. -/
def newChainDataManager : SysState :=
  setupEventListeners ⟨initMgr, [], 0⟩

/-- `cleanup`: five `off` calls, each passing a freshly `bind`-allocated
function (identities `nextFnId .. nextFnId+4`, never seen by `on`). -/
def cleanup (s : SysState) : SysState :=
  let l1 := busOff s.listeners "block-finalized" s.nextFnId
  let l2 := busOff l1 "transaction-pending" (s.nextFnId + 1)
  let l3 := busOff l2 "transaction-proposed" (s.nextFnId + 2)
  let l4 := busOff l3 "transaction-confirmed" (s.nextFnId + 3)
  let l5 := busOff l4 "transaction-rejected" (s.nextFnId + 4)
  { s with listeners := l5, nextFnId := s.nextFnId + 5 }

/-- The bus event name a normalized event is emitted under. -/
def eventName (e : BusIn) : String :=
  match e with
  | BusIn.blockFinalized _ => "block-finalized"
  | BusIn.transactionPending _ => "transaction-pending"
  | BusIn.transactionProposed _ => "transaction-proposed"
  | BusIn.transactionConfirmed _ => "transaction-confirmed"
  | BusIn.transactionRejected _ => "transaction-rejected"

/-- Invoke one registered bound method on the manager state for a payload.
(A kind/payload pairing that the registrations never create leaves the
state unchanged.) -/
def runHandler (k : HandlerKind) (m : MgrState) (e : BusIn) : MgrState :=
  match k, e with
  | HandlerKind.hNewBlock, BusIn.blockFinalized b => (handleNewBlock m b).1
  | HandlerKind.hTxUpdate, BusIn.transactionPending t => (handleTransactionUpdate m t).1
  | HandlerKind.hTxUpdate, BusIn.transactionProposed t => (handleTransactionUpdate m t).1
  | HandlerKind.hTxUpdate, BusIn.transactionConfirmed t => (handleTransactionUpdate m t).1
  | HandlerKind.hTxRejected, BusIn.transactionRejected t => (handleTransactionRejected m t).1
  | _, _ => m

/-- `EventBus.emit`: run every listener registered for the event's name,
in registration order. -/
def emitBus (s : SysState) (e : BusIn) : SysState :=
  { s with
    mgr := s.listeners.foldl
      (fun m l => if l.event = eventName e then runHandler l.kind m e else m)
      s.mgr }

/-- The integer a decimal digit string denotes, most significant digit
first: the spec-side reading of a precision-sensitive reward string. -/
def decValue (s : String) : Nat :=
  s.data.foldl (fun n c => n * 10 + (c.toNat - 48)) 0

/-- The spec's throughput formula, word for word: sum of the last 10
entries of the transaction-count window divided by (10 × the average
block interval); 0 if the average interval is 0 or the window is empty. -/
def specThroughput (s : MgrState) : ℚ :=
  if calculateAverageBlockTime s = 0 ∨ s.transactionCounts = [] then 0
  else (((lastN 10 s.transactionCounts).foldl (· + ·) 0 : ℕ) : ℚ)
    / (10 * calculateAverageBlockTime s)

/-- Number of map entries stored under a key. -/
def countKey (m : List (String × α)) (k : String) : Nat :=
  (m.filter (fun p => p.1 = k)).length

/-- The keys of a map are pairwise distinct. -/
def keysNodup (m : List (String × α)) : Prop :=
  (m.map Prod.fst).Nodup

/-! ## Helper lemmas about the map model -/

theorem mapGet_eq_none_forall (m : List (String × α)) (k : String)
    (h : mapGet m k = none) : ∀ p ∈ m, ¬ p.1 = k := by
  intro p hp
  unfold mapGet at h
  cases hfind : m.find? (fun q => q.1 = k) with
  | none => simpa using List.find?_eq_none.mp hfind p hp
  | some q => rw [hfind] at h; simp at h

theorem find?_mapSet_replace (m : List (String × α)) (k : String) (v : α)
    (h : (m.find? (fun p => p.1 = k)).isSome = true) :
    (m.map (fun p => if p.1 = k then (k, v) else p)).find? (fun p => p.1 = k) = some (k, v) := by
  induction m with
  | nil => simp at h
  | cons q m ih =>
    by_cases hq : q.1 = k
    · simp [hq]
    · have h' : (m.find? (fun p => p.1 = k)).isSome = true := by
        rw [List.find?_cons_of_neg] at h
        · exact h
        · simpa using hq
      simpa [hq] using ih h'

theorem mapGet_mapSet_self (m : List (String × α)) (k : String) (v : α) :
    mapGet (mapSet m k v) k = some v := by
  unfold mapGet mapSet
  by_cases h : (m.find? (fun p => p.1 = k)).isSome = true
  · rw [if_pos h, find?_mapSet_replace m k v h]; rfl
  · rw [if_neg h, List.find?_append]
    have hn : m.find? (fun p => p.1 = k) = none := by
      cases hf : m.find? (fun p => p.1 = k) with
      | none => rfl
      | some q => rw [hf] at h; simp at h
    rw [hn]
    simp

theorem mapGet_mapDelete_self (m : List (String × α)) (k : String) :
    mapGet (mapDelete m k) k = none := by
  unfold mapGet mapDelete
  have h : (m.filter fun p => ¬ p.1 = k).find? (fun p => p.1 = k) = none := by
    apply List.find?_eq_none.mpr
    intro p hp
    simpa using (List.mem_filter.mp hp).2
  rw [h]
  rfl

/-! ## Claim theorems -/

/-- C9: in the initial state, with no blocks ingested, getMetrics returns
average block interval 0, transaction throughput 0, network hash rate 0,
pending count 0, and confirmation time 0 (and, being a total function of
the state, it does not throw). -/
theorem getMetrics_zero_state :
    getMetrics initMgr =
      { averageBlockTime := 0, transactionThroughput := 0, networkHashRate := 0,
        pendingTxCount := 0, confirmationTime := 0 } := by
  norm_num [getMetrics, calculateAverageBlockTime, calculateTransactionThroughput,
    estimateHashRate, calculateAverageConfirmationTime, initMgr]

/-- C10: a transaction-rejected event whose hash is absent from the
transaction map still publishes transaction-removed with that hash, and
leaves the whole manager state (the transaction map included) unchanged. -/
theorem rejected_absent_hash_no_change (s : MgrState) (t : EnhancedTransaction)
    (h : getTransactionByHash s t.txHash = none) :
    handleTransactionRejected s t = (s, [BusOut.transactionRemoved t.txHash]) := by
  have hall : ∀ p ∈ s.transactions, ¬ p.1 = t.txHash := mapGet_eq_none_forall _ _ h
  unfold handleTransactionRejected mapDelete
  have hfilter : (s.transactions.filter fun p => ¬ p.1 = t.txHash) = s.transactions := by
    apply List.filter_eq_self.mpr
    intro p hp
    simpa using hall p hp
  rw [hfilter]

/-- C10 witness: a rejected event for hash T9 on the freshly constructed
manager is a state no-op that still emits transaction-removed T9. -/
theorem rejected_absent_hash_no_change_witness :
    handleTransactionRejected initMgr ⟨"T9", 0, TxStatus.REJECTED⟩ =
      (initMgr, [BusOut.transactionRemoved "T9"]) :=
  rejected_absent_hash_no_change initMgr ⟨"T9", 0, TxStatus.REJECTED⟩ (by decide)

/-- C7: the normalizer republishes a block.finalized payload verbatim,
republishes each transaction.* payload with the status derived purely from
the message type, emits nothing (and never raises) for an unknown type tag,
and classifies each message of a stream independently of the others. -/
theorem handleMessage_normalization :
    (∀ ch b, handleMessage ⟨ch, "block.finalized", WirePayload.block b⟩ =
        [BusIn.blockFinalized b]) ∧
    (∀ ch t, handleMessage ⟨ch, "transaction.pending", WirePayload.transaction t⟩ =
        [BusIn.transactionPending (attachStatus t TxStatus.PENDING)]) ∧
    (∀ ch t, handleMessage ⟨ch, "transaction.proposed", WirePayload.transaction t⟩ =
        [BusIn.transactionProposed (attachStatus t TxStatus.PROPOSED)]) ∧
    (∀ ch t, handleMessage ⟨ch, "transaction.confirmed", WirePayload.transaction t⟩ =
        [BusIn.transactionConfirmed (attachStatus t TxStatus.CONFIRMED)]) ∧
    (∀ ch t, handleMessage ⟨ch, "transaction.rejected", WirePayload.transaction t⟩ =
        [BusIn.transactionRejected (attachStatus t TxStatus.REJECTED)]) ∧
    (∀ w : WebSocketMessage,
      w.type ∉ (["block.finalized", "transaction.pending", "transaction.proposed",
        "transaction.confirmed", "transaction.rejected"] : List String) →
      handleMessage w = []) ∧
    (∀ (w : WebSocketMessage) (ws : List WebSocketMessage),
      handleMessages (w :: ws) = handleMessage w ++ handleMessages ws) := by
  refine ⟨fun ch b => rfl, fun ch t => rfl, fun ch t => rfl, fun ch t => rfl,
    fun ch t => rfl, ?_, fun w ws => rfl⟩
  intro w hw
  obtain ⟨ch, ty, p⟩ := w
  simp only [List.mem_cons, List.not_mem_nil, or_false] at hw
  push_neg at hw
  obtain ⟨h1, h2, h3, h4, h5⟩ := hw
  unfold handleMessage
  dsimp only
  split
  all_goals simp_all

/-- C7 witness: a message with the unknown type tag block.speculative is
dropped (no event emitted). -/
theorem handleMessage_normalization_witness :
    handleMessage ⟨"chain", "block.speculative", WirePayload.block ⟨"9", "hX", 0, "m", "0", 1⟩⟩
      = [] :=
  handleMessage_normalization.2.2.2.2.2.1
    ⟨"chain", "block.speculative", WirePayload.block ⟨"9", "hX", 0, "m", "0", 1⟩⟩ (by decide)

theorem digitsToNat_eq_foldl (cs : List Char) (acc : Nat) :
    digitsToNat cs acc = cs.foldl (fun n c => n * 10 + (c.toNat - 48)) acc := by
  induction cs generalizing acc with
  | nil => rfl
  | cons c rest ih => simp [digitsToNat, ih]

/-- C8: for a block whose reward is a nonempty decimal digit string, the
derived ProcessedBlock carries the exact integer that string denotes
(BigInt semantics, no floating-point anywhere in the path). -/
theorem processBlock_reward_exact (b : Block) (h1 : ¬ b.reward = "")
    (h2 : b.reward.data.all (fun c => c.isDigit) = true) :
    (processBlock b).map (fun pb => pb.totalValue) = some ((decValue b.reward : Nat) : Int) := by
  have hbig : jsBigInt b.reward = some ((decValue b.reward : Nat) : Int) := by
    unfold jsBigInt
    rw [if_neg h1, if_pos h2, decValue, digitsToNat_eq_foldl]
  unfold processBlock
  rw [if_neg h1, hbig]
  rfl

/-- C8 witness: reward "123456789012345678" round-trips exactly. -/
theorem processBlock_reward_exact_witness :
    (processBlock ⟨"1", "hb", 0, "miner", "123456789012345678", 2⟩).map
        (fun pb => pb.totalValue) =
      some ((decValue "123456789012345678" : Nat) : Int) ∧
    decValue "123456789012345678" = 123456789012345678 :=
  ⟨processBlock_reward_exact ⟨"1", "hb", 0, "miner", "123456789012345678", 2⟩
      (by decide) (by decide),
   by decide⟩

/-- C5: a reward parse failure inside handleNewBlock is swallowed by the
handler's try/catch before any field was mutated: the whole state (both
maps and both windows) is unchanged and nothing is emitted; a subsequent
well-formed block is processed normally and is retrievable by hash.
(Transaction handlers are total for well-typed events, so the block parse
is the only throw-point of the ingestion path.) -/
theorem handler_fault_isolation (s : MgrState) (b bGood : Block) (pb : ProcessedBlockData)
    (hbad : processBlock b = none) (hgood : processBlock bGood = some pb) :
    handleNewBlock s b = (s, []) ∧
    getBlockByHash (handleNewBlock ((handleNewBlock s b).1) bGood).1 bGood.blockHash
      = some pb := by
  have h1 : handleNewBlock s b = (s, []) := by
    unfold handleNewBlock
    rw [hbad]
  refine ⟨h1, ?_⟩
  rw [h1]
  unfold handleNewBlock
  rw [hgood]
  exact mapGet_mapSet_self _ _ _

/-- C5 witness: the malformed reward "xyz" leaves the initial state
untouched, and the following well-formed block is stored and found. -/
theorem handler_fault_isolation_witness :
    handleNewBlock initMgr ⟨"1", "hbad", 0, "m", "xyz", 1⟩ = (initMgr, []) ∧
    getBlockByHash
      (handleNewBlock ((handleNewBlock initMgr ⟨"1", "hbad", 0, "m", "xyz", 1⟩).1)
        ⟨"2", "hgood", 5, "m", "7", 3⟩).1 "hgood"
      = some ⟨"hgood", some 2, 5, 3, 7, 0, "m", 0⟩ :=
  handler_fault_isolation initMgr ⟨"1", "hbad", 0, "m", "xyz", 1⟩
    ⟨"2", "hgood", 5, "m", "7", 3⟩ ⟨"hgood", some 2, 5, 3, 7, 0, "m", 0⟩
    (by decide) (by decide)

/-! ## Key-uniqueness machinery for the transaction map -/

theorem find?_key_isSome_iff (m : List (String × α)) (k : String) :
    (m.find? (fun p => p.1 = k)).isSome = true ↔ k ∈ m.map Prod.fst := by
  induction m with
  | nil => simp
  | cons q m ih =>
    by_cases hq : q.1 = k
    · rw [List.find?_cons_of_pos _ (by simpa using hq)]
      simp [hq]
    · rw [List.find?_cons_of_neg _ (by simpa using hq)]
      simp only [List.map_cons, List.mem_cons, ih]
      constructor
      · exact Or.inr
      · rintro (h | h)
        · exact absurd h.symm hq
        · exact h

theorem keysNodup_mapSet (m : List (String × α)) (k : String) (v : α)
    (h : keysNodup m) : keysNodup (mapSet m k v) := by
  unfold keysNodup mapSet at *
  by_cases hf : (m.find? (fun p => p.1 = k)).isSome = true
  · rw [if_pos hf, List.map_map]
    have hsame : m.map (Prod.fst ∘ fun p => if p.1 = k then (k, v) else p)
        = m.map Prod.fst := by
      apply List.map_congr_left
      intro p _
      by_cases hpk : p.1 = k <;> simp [hpk]
    rw [hsame]
    exact h
  · rw [if_neg hf]
    have hk : k ∉ m.map Prod.fst := fun hmem => hf ((find?_key_isSome_iff m k).mpr hmem)
    rw [List.map_append]
    simp only [List.map_cons, List.map_nil]
    rw [List.nodup_append]
    refine ⟨h, List.nodup_singleton k, ?_⟩
    intro a ha hak
    simp only [List.mem_singleton] at hak
    exact hk (hak ▸ ha)

theorem keysNodup_mapDelete (m : List (String × α)) (k : String)
    (h : keysNodup m) : keysNodup (mapDelete m k) := by
  unfold keysNodup mapDelete at *
  exact ((List.filter_sublist m).map Prod.fst).nodup h

theorem mapSet_cons_head (q : String × α) (m : List (String × α)) (k : String) (v : α)
    (hq : q.1 = k) (hk : k ∉ m.map Prod.fst) :
    mapSet (q :: m) k v = (k, v) :: m := by
  unfold mapSet
  rw [List.find?_cons_of_pos _ (by simpa using hq)]
  simp only [Option.isSome_some, if_pos]
  simp only [List.map_cons, hq, if_pos]
  congr 1
  have hid : m.map (fun p => if p.1 = k then (k, v) else p) = m.map id := by
    apply List.map_congr_left
    intro p hp
    have hne : ¬ p.1 = k := fun hpk => hk (hpk ▸ List.mem_map_of_mem Prod.fst hp)
    simp [hne]
  rw [hid, List.map_id]

theorem mapSet_cons_tail (q : String × α) (m : List (String × α)) (k : String) (v : α)
    (hq : ¬ q.1 = k) :
    mapSet (q :: m) k v = q :: mapSet m k v := by
  unfold mapSet
  rw [List.find?_cons_of_neg _ (by simpa using hq)]
  by_cases hf : (m.find? (fun p => p.1 = k)).isSome = true
  · rw [if_pos hf, if_pos hf]
    simp [hq]
  · rw [if_neg hf, if_neg hf]
    simp

theorem filter_key_mapSet (m : List (String × α)) (k : String) (v : α)
    (h : keysNodup m) :
    (mapSet m k v).filter (fun p => p.1 = k) = [(k, v)] := by
  induction m with
  | nil => simp [mapSet, List.filter]
  | cons q m ih =>
    unfold keysNodup at h
    simp only [List.map_cons, List.nodup_cons] at h
    by_cases hq : q.1 = k
    · rw [mapSet_cons_head q m k v hq (hq ▸ h.1)]
      rw [List.filter_cons_of_pos (by simp)]
      have hnone : m.filter (fun p => decide (p.1 = k)) = [] := by
        apply List.filter_eq_nil_iff.mpr
        intro p hp
        have : ¬ p.1 = k := fun hpk => (hq ▸ h.1) (hpk ▸ List.mem_map_of_mem Prod.fst hp)
        simpa using this
      simpa using hnone
    · rw [mapSet_cons_tail q m k v hq]
      rw [List.filter_cons_of_neg (by simpa using hq)]
      exact ih h.2

theorem keysNodup_step (s : MgrState) (e : BusIn) (h : keysNodup s.transactions) :
    keysNodup ((step s e).1).transactions := by
  cases e with
  | blockFinalized b =>
    show keysNodup ((handleNewBlock s b).1).transactions
    unfold handleNewBlock
    cases processBlock b with
    | none => exact h
    | some pb => exact h
  | transactionPending t => exact keysNodup_mapSet _ _ _ h
  | transactionProposed t => exact keysNodup_mapSet _ _ _ h
  | transactionConfirmed t => exact keysNodup_mapSet _ _ _ h
  | transactionRejected t => exact keysNodup_mapDelete _ _ h

theorem keysNodup_runMgr (evs : List BusIn) : keysNodup (runMgr initMgr evs).transactions := by
  suffices h : ∀ s : MgrState, keysNodup s.transactions →
      keysNodup (runMgr s evs).transactions from
    h initMgr (by simp [initMgr, keysNodup])
  induction evs with
  | nil => exact fun s h => h
  | cons e evs ih => exact fun s h => ih ((step s e).1) (keysNodup_step s e h)

/-- C4: after any event history, a pending/proposed/confirmed event for a
hash leaves the transaction map with exactly one record under that hash,
whose status is the status carried by that latest event (replace, never
duplicate); after a rejected event for the hash, lookup returns the
explicit absent result. -/
theorem transaction_latest_status_wins (evs : List BusIn) (t : EnhancedTransaction) (e : BusIn)
    (he : e = BusIn.transactionPending t ∨ e = BusIn.transactionProposed t ∨
          e = BusIn.transactionConfirmed t) :
    (getTransactionByHash (step (runMgr initMgr evs) e).1 t.txHash
        = some (processTransaction t) ∧
      (processTransaction t).status = t.status ∧
      countKey ((step (runMgr initMgr evs) e).1).transactions t.txHash = 1) ∧
    getTransactionByHash (step (runMgr initMgr evs) (BusIn.transactionRejected t)).1 t.txHash
      = none := by
  have hnodup := keysNodup_runMgr evs
  constructor
  · have hstep : (step (runMgr initMgr evs) e).1
        = (handleTransactionUpdate (runMgr initMgr evs) t).1 := by
      rcases he with h | h | h <;> rw [h] <;> rfl
    rw [hstep]
    refine ⟨mapGet_mapSet_self _ _ _, rfl, ?_⟩
    show countKey (mapSet (runMgr initMgr evs).transactions t.txHash (processTransaction t))
      t.txHash = 1
    unfold countKey
    rw [filter_key_mapSet _ _ _ hnodup]
    rfl
  · exact mapGet_mapDelete_self _ _

/-- C4 witness: T1 fed PENDING then PROPOSED holds exactly one record with
status PROPOSED. -/
theorem transaction_latest_status_wins_witness :
    getTransactionByHash
        (step (runMgr initMgr [BusIn.transactionPending ⟨"T1", 0, TxStatus.PENDING⟩])
          (BusIn.transactionProposed ⟨"T1", 1, TxStatus.PROPOSED⟩)).1 "T1"
      = some (processTransaction ⟨"T1", 1, TxStatus.PROPOSED⟩) ∧
    countKey ((step (runMgr initMgr [BusIn.transactionPending ⟨"T1", 0, TxStatus.PENDING⟩])
          (BusIn.transactionProposed ⟨"T1", 1, TxStatus.PROPOSED⟩)).1).transactions "T1" = 1 :=
  ⟨((transaction_latest_status_wins [BusIn.transactionPending ⟨"T1", 0, TxStatus.PENDING⟩]
      ⟨"T1", 1, TxStatus.PROPOSED⟩ (BusIn.transactionProposed ⟨"T1", 1, TxStatus.PROPOSED⟩)
      (Or.inr (Or.inl rfl))).1).1,
   ((transaction_latest_status_wins [BusIn.transactionPending ⟨"T1", 0, TxStatus.PENDING⟩]
      ⟨"T1", 1, TxStatus.PROPOSED⟩ (BusIn.transactionProposed ⟨"T1", 1, TxStatus.PROPOSED⟩)
      (Or.inr (Or.inl rfl))).1).2.2⟩

/-! ## Sliding-window lemmas -/

theorem length_lastN (n : Nat) (l : List α) : (lastN n l).length = min n l.length := by
  unfold lastN
  rw [List.length_drop]
  omega

theorem lastN_of_le (n : Nat) (l : List α) (h : l.length ≤ n) : lastN n l = l := by
  unfold lastN
  rw [Nat.sub_eq_zero_of_le h, List.drop_zero]

theorem lastN_cons_of_le (n : Nat) (a : α) (m : List α) (h : n ≤ m.length) :
    lastN n (a :: m) = lastN n m := by
  unfold lastN
  have hlen : (a :: m).length - n = (m.length - n) + 1 := by
    simp only [List.length_cons]
    omega
  rw [hlen, List.drop_succ_cons]

theorem length_pushWindow_le (w : List α) (x : α) (h : w.length ≤ 100) :
    (pushWindow w x).length ≤ 100 := by
  unfold pushWindow
  by_cases hl : (w ++ [x]).length > 100
  · rw [if_pos hl]
    rw [List.length_tail, List.length_append]
    simp only [List.length_singleton]
    omega
  · rw [if_neg hl]
    simp only [List.length_append, List.length_singleton] at hl ⊢
    omega

theorem pushWindow_of_lt (w : List α) (x : α) (h : w.length < 100) :
    pushWindow w x = w ++ [x] := by
  unfold pushWindow
  rw [if_neg]
  simp only [List.length_append, List.length_singleton, gt_iff_lt, not_lt]
  omega

theorem lastN_pushWindow_append (w : List α) (x : α) (xs : List α) (h : w.length ≤ 100) :
    lastN 100 (pushWindow w x ++ xs) = lastN 100 ((w ++ [x]) ++ xs) := by
  unfold pushWindow
  by_cases hl : (w ++ [x]).length > 100
  · rw [if_pos hl]
    have hw : w.length = 100 := by
      simp only [List.length_append, List.length_singleton, gt_iff_lt] at hl
      omega
    cases hwx : w ++ [x] with
    | nil => simp at hwx
    | cons c m =>
      have hm : m.length = 100 := by
        have hlen := congrArg List.length hwx
        simp at hlen
        omega
      rw [List.tail_cons, List.cons_append, lastN_cons_of_le]
      rw [List.length_append]
      omega
  · rw [if_neg hl]

theorem foldl_pushWindow (xs : List α) :
    ∀ w : List α, w.length ≤ 100 → List.foldl pushWindow w xs = lastN 100 (w ++ xs) := by
  induction xs with
  | nil =>
    intro w h
    rw [List.foldl_nil, List.append_nil, lastN_of_le 100 w h]
  | cons x xs ih =>
    intro w h
    rw [List.foldl_cons, ih (pushWindow w x) (length_pushWindow_le w x h)]
    rw [lastN_pushWindow_append w x xs h, List.append_assoc, List.singleton_append]

theorem runMgr_cons (s : MgrState) (e : BusIn) (es : List BusIn) :
    runMgr s (e :: es) = runMgr ((step s e).1) es := rfl

theorem processBlock_fields (b : Block) (pb : ProcessedBlockData)
    (h : processBlock b = some pb) :
    pb.timestamp = b.timestamp ∧ pb.transactionCount = b.transactionCount := by
  unfold processBlock at h
  cases hj : jsBigInt (if b.reward = "" then "0" else b.reward) with
  | none => rw [hj] at h; simp at h
  | some v =>
    rw [hj] at h
    simp only [Option.map] at h
    cases h
    exact ⟨rfl, rfl⟩

theorem handleNewBlock_state (s : MgrState) (b : Block) (pb : ProcessedBlockData)
    (h : processBlock b = some pb) :
    (handleNewBlock s b).1 =
      { blocks := mapSet s.blocks b.blockHash pb
        transactions := s.transactions
        blockTimestamps := pushWindow s.blockTimestamps b.timestamp
        transactionCounts := pushWindow s.transactionCounts b.transactionCount } := by
  obtain ⟨ht, hc⟩ := processBlock_fields b pb h
  unfold handleNewBlock
  rw [h]
  dsimp only
  rw [ht, hc]

theorem runMgr_windows (bs : List Block) :
    ∀ s : MgrState, (∀ b ∈ bs, (processBlock b).isSome = true) →
    (runMgr s (bs.map BusIn.blockFinalized)).blockTimestamps
        = List.foldl pushWindow s.blockTimestamps (bs.map fun b => b.timestamp) ∧
    (runMgr s (bs.map BusIn.blockFinalized)).transactionCounts
        = List.foldl pushWindow s.transactionCounts (bs.map fun b => b.transactionCount) := by
  induction bs with
  | nil => exact fun s _ => ⟨rfl, rfl⟩
  | cons b bs ih =>
    intro s h
    have hb : (processBlock b).isSome = true := h b (List.mem_cons_self b bs)
    obtain ⟨pb, hpb⟩ := Option.isSome_iff_exists.mp hb
    have hstate : (step s (BusIn.blockFinalized b)).1 =
        { blocks := mapSet s.blocks b.blockHash pb
          transactions := s.transactions
          blockTimestamps := pushWindow s.blockTimestamps b.timestamp
          transactionCounts := pushWindow s.transactionCounts b.transactionCount } :=
      handleNewBlock_state s b pb hpb
    rw [List.map_cons, runMgr_cons, hstate, List.map_cons, List.map_cons,
      List.foldl_cons, List.foldl_cons]
    exact ih _ (fun b' hb' => h b' (List.mem_cons_of_mem b hb'))

/-- C3: starting from the initial state, any sequence of well-formed
block-finalized events leaves both windows equal to the values of the most
recent 100 events in arrival order (FIFO eviction beyond 100 entries), and
after at least 100 events both windows have length exactly 100. -/
theorem sliding_window_bound (bs : List Block)
    (hval : ∀ b ∈ bs, (processBlock b).isSome = true) :
    (runMgr initMgr (bs.map BusIn.blockFinalized)).blockTimestamps
        = lastN 100 (bs.map fun b => b.timestamp) ∧
    (runMgr initMgr (bs.map BusIn.blockFinalized)).transactionCounts
        = lastN 100 (bs.map fun b => b.transactionCount) ∧
    (100 ≤ bs.length →
      (runMgr initMgr (bs.map BusIn.blockFinalized)).blockTimestamps.length = 100 ∧
      (runMgr initMgr (bs.map BusIn.blockFinalized)).transactionCounts.length = 100) := by
  obtain ⟨hts, hcs⟩ := runMgr_windows bs initMgr hval
  have hts2 : (runMgr initMgr (bs.map BusIn.blockFinalized)).blockTimestamps
      = lastN 100 (bs.map fun b => b.timestamp) := by
    rw [hts, foldl_pushWindow _ _ (by simp [initMgr])]
    rfl
  have hcs2 : (runMgr initMgr (bs.map BusIn.blockFinalized)).transactionCounts
      = lastN 100 (bs.map fun b => b.transactionCount) := by
    rw [hcs, foldl_pushWindow _ _ (by simp [initMgr])]
    rfl
  refine ⟨hts2, hcs2, fun hlen => ⟨?_, ?_⟩⟩
  · rw [hts2, length_lastN, List.length_map]
    omega
  · rw [hcs2, length_lastN, List.length_map]
    omega

/-- C3 witness: two well-formed blocks give windows [3, 8] and [5, 7]
(vacuously satisfying the at-least-100 clause). -/
theorem sliding_window_bound_witness :
    (runMgr initMgr ([⟨"1", "h1", 3, "m", "0", 5⟩, ⟨"2", "h2", 8, "m", "0", 7⟩].map
        BusIn.blockFinalized)).blockTimestamps
      = lastN 100 ([(⟨"1", "h1", 3, "m", "0", 5⟩ : Block),
          ⟨"2", "h2", 8, "m", "0", 7⟩].map fun b => b.timestamp) :=
  (sliding_window_bound [⟨"1", "h1", 3, "m", "0", 5⟩, ⟨"2", "h2", 8, "m", "0", 7⟩]
    (by decide)).1

/-- C6: the average block interval is 0 with fewer than 2 samples and
otherwise the mean of the consecutive timestamp deltas of the window,
converted to seconds; in particular three blocks at t, t+10000, t+25000
milliseconds give 12.5 seconds. -/
theorem averageBlockTime_spec :
    (∀ s : MgrState, s.blockTimestamps.length < 2 → calculateAverageBlockTime s = 0) ∧
    (∀ s : MgrState, 2 ≤ s.blockTimestamps.length →
      calculateAverageBlockTime s =
        ((((List.zipWith (fun a b => b - a) s.blockTimestamps s.blockTimestamps.tail).foldl
            (· + ·) 0 : Int) : ℚ) / ((s.blockTimestamps.length - 1 : ℕ) : ℚ)) / 1000) ∧
    (∀ t : Int,
      (getMetrics (runMgr initMgr
        [BusIn.blockFinalized ⟨"1", "ha", t, "m", "0", 5⟩,
         BusIn.blockFinalized ⟨"2", "hb", t + 10000, "m", "0", 7⟩,
         BusIn.blockFinalized ⟨"3", "hc", t + 25000, "m", "0", 9⟩])).averageBlockTime
        = 25 / 2) := by
  refine ⟨?_, ?_, ?_⟩
  · intro s h
    unfold calculateAverageBlockTime
    rw [if_pos h]
  · intro s h
    unfold calculateAverageBlockTime
    rw [if_neg (by omega)]
    have hlen : (List.zipWith (fun a b => b - a)
        s.blockTimestamps s.blockTimestamps.tail).length
        = s.blockTimestamps.length - 1 := by
      rw [List.length_zipWith, List.length_tail]
      omega
    dsimp only
    rw [hlen]
  · intro t
    have h1 : processBlock ⟨"1", "ha", t, "m", "0", 5⟩
        = some ⟨"ha", some 1, t, 5, 0, 0, "m", 0⟩ := rfl
    have h2 : processBlock ⟨"2", "hb", t + 10000, "m", "0", 7⟩
        = some ⟨"hb", some 2, t + 10000, 7, 0, 0, "m", 0⟩ := rfl
    have h3 : processBlock ⟨"3", "hc", t + 25000, "m", "0", 9⟩
        = some ⟨"hc", some 3, t + 25000, 9, 0, 0, "m", 0⟩ := rfl
    have hw := (runMgr_windows
        [⟨"1", "ha", t, "m", "0", 5⟩, ⟨"2", "hb", t + 10000, "m", "0", 7⟩,
         ⟨"3", "hc", t + 25000, "m", "0", 9⟩] initMgr ?hval).1
    case hval =>
      intro b hb
      simp only [List.mem_cons, List.not_mem_nil, or_false] at hb
      rcases hb with rfl | rfl | rfl
      · rw [h1]; rfl
      · rw [h2]; rfl
      · rw [h3]; rfl
    have hfold : List.foldl pushWindow ([] : List Int) [t, t + 10000, t + 25000]
        = [t, t + 10000, t + 25000] := by
      rw [foldl_pushWindow _ _ (by simp), List.nil_append, lastN_of_le _ _ (by simp)]
    have hts : (runMgr initMgr
        [BusIn.blockFinalized ⟨"1", "ha", t, "m", "0", 5⟩,
         BusIn.blockFinalized ⟨"2", "hb", t + 10000, "m", "0", 7⟩,
         BusIn.blockFinalized ⟨"3", "hc", t + 25000, "m", "0", 9⟩]).blockTimestamps
        = [t, t + 10000, t + 25000] := by
      rw [show [BusIn.blockFinalized ⟨"1", "ha", t, "m", "0", 5⟩,
            BusIn.blockFinalized ⟨"2", "hb", t + 10000, "m", "0", 7⟩,
            BusIn.blockFinalized ⟨"3", "hc", t + 25000, "m", "0", 9⟩]
          = [(⟨"1", "ha", t, "m", "0", 5⟩ : Block), ⟨"2", "hb", t + 10000, "m", "0", 7⟩,
             ⟨"3", "hc", t + 25000, "m", "0", 9⟩].map BusIn.blockFinalized from rfl, hw]
      simpa [initMgr] using hfold
    simp only [getMetrics]
    unfold calculateAverageBlockTime
    rw [hts]
    norm_num [List.zipWith]

/-- C6 witness: the empty window gives 0, and a concrete t (= 0) gives the
12.5-second average. -/
theorem averageBlockTime_spec_witness :
    calculateAverageBlockTime initMgr = 0 ∧
    calculateAverageBlockTime ⟨[], [], [0, 10000], []⟩
      = ((((List.zipWith (fun a b => b - a) ([0, 10000] : List Int)
          ([0, 10000] : List Int).tail).foldl (· + ·) 0 : Int) : ℚ)
        / ((([0, 10000] : List Int).length - 1 : ℕ) : ℚ)) / 1000 ∧
    (getMetrics (runMgr initMgr
      [BusIn.blockFinalized ⟨"1", "ha", 0, "m", "0", 5⟩,
       BusIn.blockFinalized ⟨"2", "hb", 0 + 10000, "m", "0", 7⟩,
       BusIn.blockFinalized ⟨"3", "hc", 0 + 25000, "m", "0", 9⟩])).averageBlockTime = 25 / 2 :=
  ⟨averageBlockTime_spec.1 initMgr (by decide),
   averageBlockTime_spec.2.1 ⟨[], [], [0, 10000], []⟩ (by decide),
   averageBlockTime_spec.2.2 0⟩

/-- C2 counterexample: in the reachable state after two blocks at 0 ms and
10000 ms carrying transaction counts 5 and 7, the code's throughput is
12 / (2 × 10) = 3/5 tx/s, while the spec's formula (divide by 10 × the
average interval) gives 12 / (10 × 10) = 3/25: the claim fails whenever
the transaction-count window holds fewer than 10 entries. -/
theorem throughput_claim_counterexample :
    calculateTransactionThroughput (runMgr initMgr
      [BusIn.blockFinalized ⟨"1", "h1", 0, "m", "0", 5⟩,
       BusIn.blockFinalized ⟨"2", "h2", 10000, "m", "0", 7⟩]) = 3 / 5 ∧
    specThroughput (runMgr initMgr
      [BusIn.blockFinalized ⟨"1", "h1", 0, "m", "0", 5⟩,
       BusIn.blockFinalized ⟨"2", "h2", 10000, "m", "0", 7⟩]) = 3 / 25 ∧
    ¬ (calculateTransactionThroughput (runMgr initMgr
        [BusIn.blockFinalized ⟨"1", "h1", 0, "m", "0", 5⟩,
         BusIn.blockFinalized ⟨"2", "h2", 10000, "m", "0", 7⟩])
      = specThroughput (runMgr initMgr
        [BusIn.blockFinalized ⟨"1", "h1", 0, "m", "0", 5⟩,
         BusIn.blockFinalized ⟨"2", "h2", 10000, "m", "0", 7⟩])) := by
  have hs : runMgr initMgr
      [BusIn.blockFinalized ⟨"1", "h1", 0, "m", "0", 5⟩,
       BusIn.blockFinalized ⟨"2", "h2", 10000, "m", "0", 7⟩]
      = ⟨[("h1", ⟨"h1", some 1, 0, 5, 0, 0, "m", 0⟩),
          ("h2", ⟨"h2", some 2, 10000, 7, 0, 0, "m", 0⟩)], [], [0, 10000], [5, 7]⟩ := by
    decide
  have h1 : calculateTransactionThroughput (runMgr initMgr
      [BusIn.blockFinalized ⟨"1", "h1", 0, "m", "0", 5⟩,
       BusIn.blockFinalized ⟨"2", "h2", 10000, "m", "0", 7⟩]) = 3 / 5 := by
    rw [hs]
    norm_num [calculateTransactionThroughput, calculateAverageBlockTime, lastN, List.zipWith]
  have h2 : specThroughput (runMgr initMgr
      [BusIn.blockFinalized ⟨"1", "h1", 0, "m", "0", 5⟩,
       BusIn.blockFinalized ⟨"2", "h2", 10000, "m", "0", 7⟩]) = 3 / 25 := by
    rw [hs]
    norm_num [specThroughput, calculateAverageBlockTime, lastN, List.zipWith]
    simp
  exact ⟨h1, h2, by rw [h1, h2]; norm_num⟩

/-- C2 amended: throughput is 0 when the window is empty or the average
interval is not positive (0 or negative); when the window is nonempty and
the average interval is positive it equals the sum of the last-10 slice
divided by (min 10 (window length) × the average interval) — the slice
length, not the constant 10. -/
theorem throughput_amended (s : MgrState) :
    (s.transactionCounts = [] → calculateTransactionThroughput s = 0) ∧
    (¬ 0 < calculateAverageBlockTime s → calculateTransactionThroughput s = 0) ∧
    (s.transactionCounts ≠ [] → 0 < calculateAverageBlockTime s →
      calculateTransactionThroughput s =
        (((lastN 10 s.transactionCounts).foldl (· + ·) 0 : ℕ) : ℚ)
          / (((min 10 s.transactionCounts.length : ℕ) : ℚ) * calculateAverageBlockTime s)) := by
  refine ⟨?_, ?_, ?_⟩
  · intro h
    unfold calculateTransactionThroughput
    rw [if_pos (by rw [h]; rfl)]
  · intro h
    unfold calculateTransactionThroughput
    by_cases hl : s.transactionCounts.length = 0
    · rw [if_pos hl]
    · rw [if_neg hl]
      dsimp only
      rw [if_neg h]
  · intro h1 h2
    unfold calculateTransactionThroughput
    rw [if_neg (fun hl => h1 (List.length_eq_zero.mp hl))]
    dsimp only
    rw [if_pos h2, length_lastN]

/-- C2 amended witness: at the counterexample state the amended formula
yields the code's value 3/5, and a reordered (descending-timestamp) state
with a negative average interval yields 0. -/
theorem throughput_amended_witness :
    calculateTransactionThroughput ⟨[], [], [0, 10000], [5, 7]⟩ =
      (((lastN 10 ([5, 7] : List ℕ)).foldl (· + ·) 0 : ℕ) : ℚ)
        / (((min 10 ([5, 7] : List ℕ).length : ℕ) : ℚ)
          * calculateAverageBlockTime ⟨[], [], [0, 10000], [5, 7]⟩) ∧
    calculateTransactionThroughput ⟨[], [], [10000, 0], [5, 7]⟩ = 0 :=
  ⟨(throughput_amended ⟨[], [], [0, 10000], [5, 7]⟩).2.2 (by decide)
    (by norm_num [calculateAverageBlockTime, List.zipWith]),
   (throughput_amended ⟨[], [], [10000, 0], [5, 7]⟩).2.1
    (by norm_num [calculateAverageBlockTime, List.zipWith])⟩

/-- C1: cleanup passes freshly bind-allocated function objects to off, so
none of the five registrations made by setupEventListeners is removed
(off silently removes nothing, and no call of cleanup ever throws): after
cleanup — even after cleanup twice — all five listeners remain, and a
subsequent block-finalized bus event still mutates the manager's state,
contradicting the teardown half of the claim. -/
theorem cleanup_leaves_listeners_registered :
    (cleanup newChainDataManager).listeners = newChainDataManager.listeners ∧
    (cleanup (cleanup newChainDataManager)).listeners = newChainDataManager.listeners ∧
    newChainDataManager.listeners ≠ [] ∧
    (emitBus (cleanup newChainDataManager)
        (BusIn.blockFinalized ⟨"9", "h9", 1234, "m", "0", 3⟩)).mgr.blockTimestamps = [1234] ∧
    (emitBus (cleanup newChainDataManager)
        (BusIn.blockFinalized ⟨"9", "h9", 1234, "m", "0", 3⟩)).mgr
      ≠ (cleanup newChainDataManager).mgr :=
  ⟨by decide, by decide, by decide, by decide, by decide⟩

end ChainViz
